import Mathlib

/-!
Verification of `read_config.py`, a command-line utility that prints the value
of one `(section, key)` pair of an INI file, falling back to the empty string
when the section or key is absent.

The script delegates parsing to Python's `configparser.ConfigParser` with all
defaults (strict mode, delimiters `=`/`:`, comment prefixes `#`/`;`,
`empty_lines_in_values`, `BasicInterpolation`, case-folding `optionxform`,
default section `DEFAULT`).  The embedding below reproduces, over lists of
characters, the stdlib algorithm `RawConfigParser._read`, the lookup
`ConfigParser.get(section, option, fallback="")`, and
`BasicInterpolation._interpolate_some`, specialised to those defaults.

Strings are modelled as `List Char`.  A "file" is the list of its lines, each
line given without its trailing newline (Python's text-mode line iteration
yields lines that contain no interior `'\n'`; theorems that quantify over
arbitrary strings embedded into lines carry that side condition explicitly).
Python's notion of whitespace is modelled by its ASCII fragment, which is
exact on ASCII inputs.
-/

deriving instance DecidableEq for Except

namespace ReadConfig

/-- Strings as character lists (`str` values of the Python program). -/
abbrev Str := List Char

/-- ASCII fragment of the whitespace class used by Python's `str.strip()`
and by the regex class `\s`. -/
def pyWS (c : Char) : Bool :=
  c = ' ' || c = '\t' || c = '\n' || c = '\r' || c = '\x0b' || c = '\x0c'

/-- Python `str.lstrip()`. -/
def lstrip (s : Str) : Str := s.dropWhile pyWS

/-- Python `str.rstrip()`. -/
def rstrip (s : Str) : Str := (s.reverse.dropWhile pyWS).reverse

/-- Python `str.strip()`. -/
def pstrip (s : Str) : Str := rstrip (lstrip s)

/-- Python `str.lower()`, i.e. `RawConfigParser.optionxform` (ASCII fragment). -/
def lowerStr (s : Str) : Str := s.map Char.toLower

/-- Association list lookup (Python `dict` access, insertion-ordered). -/
def alookup {α : Type} : List (Str × α) → Str → Option α
  | [], _ => none
  | (k', v) :: t, k => if k' = k then some v else alookup t k

/-- Python `d[k] = v`: replace in place, or append a new binding at the end. -/
def aset {α : Type} : List (Str × α) → Str → α → List (Str × α)
  | [], k, v => [(k, v)]
  | (k', v') :: t, k, v =>
    if k' = k then (k', v) :: t else (k', v') :: aset t k v

/-- Python `d[k] = f(d[k])` for a key known to be present (no-op otherwise). -/
def amodify {α : Type} : List (Str × α) → Str → (α → α) → List (Str × α)
  | [], _, _ => []
  | (k', v') :: t, k, f =>
    if k' = k then (k', f v') :: t else (k', v') :: amodify t k f

/-- During `_read`, each option maps to the list of its value parts
(first line plus continuation lines), joined only at the end. -/
abbrev SectData := List (Str × List Str)

/-- The parser's default section name, `configparser.DEFAULTSECT`. -/
def DEFAULTSECT : Str := "DEFAULT".data

/-- The synthetic top-level section name the script prepends. -/
def topName : Str := "__TOP__".data

/-- The synthetic header line `"[__TOP__]"` from `fixed_config_file`. -/
def topLine : Str := "[__TOP__]".data

/-- Exceptions of the Python program that are observable through process
termination.  `parsingError` stands for the `ParsingError` collected from
non-fatal bogus lines and raised after the read loop. -/
inductive PyErr where
  | duplicateSection (name : Str)
  | duplicateOption (sect : Str) (opt : Str)
  | missingSectionHeader
  | parsingError
  | interpolationSyntax (opt : Str) (sect : Str)
  | interpolationMissingOption (opt : Str) (sect : Str) (var : Str)
  | interpolationDepth (opt : Str) (sect : Str)
  | ioError (msg : Str)
deriving DecidableEq

/-- Mutable state of `RawConfigParser._read`.  `cursect = some n` means the
current write target is section `n` (`n = DEFAULTSECT` targets the defaults
dictionary); `optname = []` plays the role of Python's falsy `None`/`""`. -/
structure PState where
  defaults : SectData
  sections : List (Str × SectData)
  cursect : Option Str
  optname : Str
  indentLevel : Nat
  addedSections : List Str
  addedOptions : List (Str × Str)
  hasErrors : Bool
deriving DecidableEq

/-- Initial `_read` state. -/
def initState : PState :=
  { defaults := [], sections := [], cursect := none, optname := [],
    indentLevel := 0, addedSections := [], addedOptions := [],
    hasErrors := false }

/-- The state reached right after the synthetic `"[__TOP__]"` line. -/
def topState : PState :=
  { defaults := [], sections := [(topName, [])], cursect := some topName,
    optname := [], indentLevel := 0, addedSections := [topName],
    addedOptions := [], hasErrors := false }

/-- Write through the current-section reference `cursect`. -/
def writeCur (st : PState) (n : Str) (f : SectData → SectData) : PState :=
  if n = DEFAULTSECT then { st with defaults := f st.defaults }
  else { st with sections := amodify st.sections n f }

/-- Match of `SECTCRE = \[(?P<header>.+)\]` against a (stripped, newline-free)
line: the header is everything between the leading `[` and the last `]`,
and must be nonempty. -/
def sectHeader? (value : Str) : Option Str :=
  match value with
  | c :: rest =>
    if c = '[' then
      match rest.reverse.dropWhile (fun x => x ≠ ']') with
      | [] => none
      | _ :: before => if before = [] then none else some before.reverse
    else none
  | [] => none

/-- Split at the first `=` or `:` (the effect of
`OPTCRE = (?P<option>.*?)\s*(?P<vi>=|:)\s*(?P<value>.*)$` on a newline-free
line): returns the parts before and after the first delimiter. -/
def splitAtDelim : Str → Option (Str × Str)
  | [] => none
  | c :: t =>
    if c = '=' || c = ':' then some ([], t)
    else (splitAtDelim t).map (fun p => (c :: p.1, p.2))

/-- Option-line match: raw option name (whitespace before the delimiter
absorbed, exactly the regex `option` group) and stripped value. -/
def optLine? (value : Str) : Option (Str × Str) :=
  (splitAtDelim value).map (fun p => (rstrip p.1, pstrip p.2))

/-- Full-line comment test: `line.strip().startswith(('#', ';'))`. -/
def isCommentLine (l : Str) : Bool :=
  match pstrip l with
  | c :: _ => c = '#' || c = ';'
  | [] => false

/-- One iteration of the `for` loop of `RawConfigParser._read`, for the
ConfigParser defaults (no inline comments, strict, empty lines kept in
multiline values, values always present). -/
def processLine (st : PState) (line : Str) : Except PyErr PState :=
  let isC := isCommentLine line
  let value := if isC then [] else pstrip line
  if value = [] then
    -- blank or comment-only line
    if !isC ∧ st.cursect ≠ none ∧ st.optname ≠ [] then
      match st.cursect with
      | some n => .ok (writeCur st n (fun d => amodify d st.optname (fun ps => ps ++ [[]])))
      | none => .ok st
    else .ok st
  else
    let curIndent := line.findIdx (fun c => ! pyWS c)
    if st.cursect ≠ none ∧ st.optname ≠ [] ∧ curIndent > st.indentLevel then
      -- continuation line: cursect[optname].append(value)
      match st.cursect with
      | some n => .ok (writeCur st n (fun d => amodify d st.optname (fun ps => ps ++ [value])))
      | none => .ok st
    else
      let st := { st with indentLevel := curIndent }
      match sectHeader? value with
      | some name =>
        if (alookup st.sections name).isSome then
          if name ∈ st.addedSections then .error (.duplicateSection name)
          else .ok { st with cursect := some name, optname := [],
                             addedSections := name :: st.addedSections }
        else if name = DEFAULTSECT then
          .ok { st with cursect := some name, optname := [] }
        else
          .ok { st with sections := st.sections ++ [(name, [])],
                        cursect := some name, optname := [],
                        addedSections := name :: st.addedSections }
      | none =>
        match st.cursect with
        | none => .error .missingSectionHeader
        | some sn =>
          match optLine? value with
          | some (rawOpt, v) =>
            let err := rawOpt = []
            let opt := lowerStr rawOpt
            if (sn, opt) ∈ st.addedOptions then .error (.duplicateOption sn opt)
            else
              .ok { (writeCur st sn (fun d => aset d opt [v])) with
                      optname := opt,
                      addedOptions := (sn, opt) :: st.addedOptions,
                      hasErrors := st.hasErrors || err }
          | none =>
            .ok { st with hasErrors := true }

/-- The `_read` loop over the line stream. -/
def runLines : PState → List Str → Except PyErr PState
  | st, [] => .ok st
  | st, l :: ls =>
    match processLine st l with
    | .ok st' => runLines st' ls
    | .error e => .error e

/-- The `'\n'.join(parts).rstrip()` of `_join_multiline_values`. -/
def joinParts (ps : List Str) : Str := rstrip (List.intercalate ['\n'] ps)

/-- The parsed configuration after `_read` finishes: joined values. -/
structure Config where
  defaults : List (Str × Str)
  sections : List (Str × List (Str × Str))
deriving DecidableEq

/-- End of `_read`: join multiline values, raise a pending `ParsingError`. -/
def finishParse (st : PState) : Except PyErr Config :=
  if st.hasErrors then .error .parsingError
  else .ok
    { defaults := st.defaults.map (fun p => (p.1, joinParts p.2)),
      sections := st.sections.map
        (fun s => (s.1, s.2.map (fun p => (p.1, joinParts p.2)))) }

/-- `parser.read_file` on an iterable of lines. -/
def parseLines (lines : List Str) : Except PyErr Config :=
  match runLines initState lines with
  | .ok st => finishParse st
  | .error e => .error e

/-- The script's parse: the synthetic `"[__TOP__]"` line is chained in front
of the file's lines (`fixed_config_file = chain(("[__TOP__]",), config_file)`),
without modifying the file. -/
def readConfigLines (fileLines : List Str) : Except PyErr Config :=
  parseLines (topLine :: fileLines)

/-- The `while rest` loop body of `BasicInterpolation._interpolate_some`,
rendered as character-by-character recursion: `%%` is an escaped percent,
`%(name)s` is replaced by the referenced value (through `nested`, the
depth-increased re-entry, when that value contains `%`), and any other `%`
raises `InterpolationSyntaxError`.  `fuel` makes the recursion structural;
every caller supplies `fuel ≥ rest.length` and every step consumes at least
one character per unit of fuel, so the `fuel = 0` arm is unreachable. -/
def interpLoop (d : List (Str × Str)) (opt sect : Str)
    (nested : Str → Except PyErr Str) : Nat → Str → Except PyErr Str
  | _, [] => .ok []
  | 0, _ :: _ => .error .parsingError
  | fuel + 1, c :: t =>
    if c = '%' then
      match t with
      | '%' :: t2 =>
        (interpLoop d opt sect nested fuel t2).map (fun r => '%' :: r)
      | '(' :: t2 =>
        -- KEYCRE = %\(([^)]+)\)s
        let name := t2.takeWhile (fun x => x ≠ ')')
        if name = [] then .error (.interpolationSyntax opt sect)
        else
          match t2.drop name.length with
          | ')' :: 's' :: rem =>
            match alookup d (lowerStr name) with
            | none => .error (.interpolationMissingOption opt sect (lowerStr name))
            | some v =>
              if '%' ∈ v then
                match nested v with
                | .error e => .error e
                | .ok rv => (interpLoop d opt sect nested fuel rem).map (fun r => rv ++ r)
              else
                (interpLoop d opt sect nested fuel rem).map (fun r => v ++ r)
          | _ => .error (.interpolationSyntax opt sect)
      | _ => .error (.interpolationSyntax opt sect)
    else (interpLoop d opt sect nested fuel t).map (fun r => c :: r)

/-- Entry of `_interpolate_some`: the depth guard, then the loop.  `gas`
bounds the nesting depth structurally; called with `gas = 11 - depth` it can
reach `gas = 0` only with `depth > 10`, where the guard answers first. -/
def interpEntry (d : List (Str × Str)) (opt sect : Str) :
    Nat → Nat → Str → Except PyErr Str
  | 0, depth, _ =>
    if depth > 10 then .error (.interpolationDepth opt sect)
    else .error .parsingError
  | gas + 1, depth, rest =>
    if depth > 10 then .error (.interpolationDepth opt sect)
    else interpLoop d opt sect (interpEntry d opt sect gas (depth + 1))
           rest.length rest

/-- `BasicInterpolation._interpolate_some(parser, option, [], value, section,
d, depth)` with the stdlib depth limit `MAX_INTERPOLATION_DEPTH = 10`. -/
def interpSome (d : List (Str × Str)) (opt sect : Str) (depth : Nat)
    (rest : Str) : Except PyErr Str :=
  interpEntry d opt sect (11 - depth) depth rest

/-- `_unify_values(section, vars=None)`: the `ChainMap` of the section's
dictionary over the defaults, as an ordered association list (first hit
wins); `NoSectionError` is `none`, and the `DEFAULT` section is special. -/
def unify (cfg : Config) (sect : Str) : Option (List (Str × Str)) :=
  match alookup cfg.sections sect with
  | some d => some (d ++ cfg.defaults)
  | none => if sect = DEFAULTSECT then some cfg.defaults else none

/-- `parser.get(section, option, fallback="")`: absent section or option
falls back to the empty string; a present value is interpolated (which can
raise). -/
def cfgGet (cfg : Config) (sect opt : Str) : Except PyErr Str :=
  match unify cfg sect with
  | none => .ok []
  | some d =>
    match alookup d (lowerStr opt) with
    | none => .ok []
    | some v => interpSome d (lowerStr opt) sect 1 v

/-- Parse (with the synthetic top section prepended) and look up, i.e. the
value-producing part of the script after argument validation. -/
def readLookup (fileLines : List Str) (sect key : Str) : Except PyErr Str :=
  match readConfigLines fileLines with
  | .ok cfg => cfgGet cfg sect key
  | .error e => .error e

/-- How the process terminated: a `sys.exit`/normal exit code, or an
uncaught exception (which the interpreter turns into a nonzero status). -/
inductive Outcome where
  | exited (code : Int)
  | raised (e : PyErr)
deriving DecidableEq

/-- True for every termination that the shell observes as a nonzero status. -/
def Outcome.nonzero : Outcome → Bool
  | .exited c => c ≠ 0
  | .raised _ => true

/-- Observable behaviour of one invocation.  `stderr` records only the text
the script itself prints (the interpreter's traceback on an uncaught
exception is abstracted into the `raised` outcome). -/
structure RunResult where
  stdout : Str
  stderr : Str
  outcome : Outcome
deriving DecidableEq

/-- The `__main__` block of `read_config.py`: fewer than four `argv` entries
print `"Missing arguments"` on stderr and exit `-1`; otherwise the file is
read (modelled by `fs`, which yields the file's lines or an I/O error such
as a missing file or undecodable bytes), parsed behind the synthetic
`"[__TOP__]"` line, and the looked-up value is printed with a newline. -/
def runMain (argv : List Str) (fs : Str → Except Str (List Str)) : RunResult :=
  match argv with
  | _prog :: file :: sect :: key :: _ =>
    match fs file with
    | .error m => { stdout := [], stderr := [], outcome := .raised (.ioError m) }
    | .ok lines =>
      match readConfigLines lines with
      | .error e => { stdout := [], stderr := [], outcome := .raised e }
      | .ok cfg =>
        match cfgGet cfg sect key with
        | .error e => { stdout := [], stderr := [], outcome := .raised e }
        | .ok v => { stdout := v ++ ['\n'], stderr := [], outcome := .exited 0 }
  | _ =>
    { stdout := [], stderr := "Missing arguments".data ++ ['\n'],
      outcome := .exited (-1) }

/-- Extract the configuration of a successful parse (dummy on error). -/
def cfgOf (r : Except PyErr Config) : Config :=
  match r with
  | .ok c => c
  | .error _ => { defaults := [], sections := [] }

/-- Extract the state of a successful partial read (dummy on error). -/
def stateOf (r : Except PyErr PState) : PState :=
  match r with
  | .ok st => st
  | .error _ => initState

/-- The raw value stored by the parser for `key` under `sect` (the value the
interpolation step starts from), if parsing succeeded and both exist. -/
def storedValue (r : Except PyErr Config) (sect key : Str) : Option Str :=
  match r with
  | .error _ => none
  | .ok cfg =>
    match alookup cfg.sections sect with
    | none => none
    | some sd => alookup sd key

/-- A file system containing the same readable file under every path. -/
def constFS (lines : List Str) : Str → Except Str (List Str) :=
  fun _ => .ok lines

/-- Parse the file as-is (no synthetic line) and look up: the reference
point for comparing against `readLookup`, which prepends `"[__TOP__]"`. -/
def plainLookup (fileLines : List Str) (sect key : Str) : Except PyErr Str :=
  match parseLines fileLines with
  | .ok cfg => cfgGet cfg sect key
  | .error e => .error e

/-- The section name line `l` would open if it were processed as a header
line: its stripped text must match `SECTCRE` and the line must not be a
full-line comment. -/
def headerName? (l : Str) : Option Str :=
  if isCommentLine l then none else sectHeader? (pstrip l)

/-- Transport between the two runs compared for the synthetic-section
invariant: the run on `"[__TOP__]"`-prefixed input carries exactly one
extra, empty `__TOP__` section (created first) and remembers it as added;
everything else agrees with the plain run. -/
def pushTop (sp : PState) : PState :=
  { sp with sections := (topName, []) :: sp.sections,
            addedSections := sp.addedSections ++ [topName] }

/-- The parts list the `_read` state holds for option `k` of section `sn`. -/
def optParts (st : PState) (sn k : Str) : Option (List Str) :=
  match alookup st.sections sn with
  | some sd => alookup sd k
  | none => none

/-- Invariant carried through the `_read` loop once the first assignment of
(case-folded) key `k` with first value part `v₀` has been made in the
synthetic top section: the parts list for `k` keeps `v₀` as its head (later
lines may only append continuation parts), and the bookkeeping remembers
both the section and the `(section, key)` pair. -/
def KeyInv (v₀ k : Str) (st : PState) : Prop :=
  (∃ parts, optParts st topName k = some (v₀ :: parts))
  ∧ (topName, k) ∈ st.addedOptions
  ∧ topName ∈ st.addedSections

/-! ### Lemmas about the string primitives -/

theorem rstrip_cons (c : Char) (t : Str) :
    rstrip (c :: t) = if pyWS c = true ∧ rstrip t = [] then [] else c :: rstrip t := by
  have ht : rstrip t = (t.reverse.dropWhile pyWS).reverse := rfl
  show ((c :: t).reverse.dropWhile pyWS).reverse = _
  rw [List.reverse_cons, List.dropWhile_append]
  by_cases h : t.reverse.dropWhile pyWS = []
  · rw [ht, h]
    by_cases hc : pyWS c <;> simp [h, hc, List.dropWhile_cons]
  · have he : (t.reverse.dropWhile pyWS).isEmpty = false := by
      simpa [List.isEmpty_iff] using h
    rw [ht]
    simp [he, h]

theorem rstrip_cons_nonws {c : Char} (t : Str) (hc : pyWS c = false) :
    rstrip (c :: t) = c :: rstrip t := by
  rw [rstrip_cons]
  simp [hc]

theorem rstrip_append (v u : Str) :
    rstrip (v ++ u) = if rstrip u = [] then rstrip v else v ++ rstrip u := by
  have hu : rstrip u = (u.reverse.dropWhile pyWS).reverse := rfl
  show ((v ++ u).reverse.dropWhile pyWS).reverse = _
  rw [List.reverse_append, List.dropWhile_append]
  by_cases h : u.reverse.dropWhile pyWS = []
  · simp [hu, h]
    rfl
  · have he : (u.reverse.dropWhile pyWS).isEmpty = false := by
      simpa [List.isEmpty_iff] using h
    simp [hu, he, h]

theorem rstrip_idem (v : Str) : rstrip (rstrip v) = rstrip v := by
  show ((((v.reverse.dropWhile pyWS).reverse).reverse).dropWhile pyWS).reverse
      = (v.reverse.dropWhile pyWS).reverse
  rw [List.reverse_reverse]
  congr 1
  induction v.reverse with
  | nil => rfl
  | cons c t ih =>
    by_cases hc : pyWS c <;> simp [List.dropWhile_cons, hc, ih]

/-- A value that `rstrip` fixes stays a prefix of the `rstrip` of any
extension; this is how a first value part survives multiline joining. -/
theorem self_pre_rstrip_append {v : Str} (h : rstrip v = v) (u : Str) :
    v <+: rstrip (v ++ u) := by
  rw [rstrip_append]
  by_cases hu : rstrip u = []
  · rw [if_pos hu, h]
  · rw [if_neg hu]
    exact ⟨rstrip u, rfl⟩

/-! ### Lemmas about association lists -/

theorem alookup_append_some {α : Type} {l₁ : List (Str × α)} {k : Str} {v : α}
    (l₂ : List (Str × α)) (h : alookup l₁ k = some v) :
    alookup (l₁ ++ l₂) k = some v := by
  induction l₁ with
  | nil => simp [alookup] at h
  | cons p t ih =>
    obtain ⟨k', v'⟩ := p
    by_cases hk : k' = k
    · simpa [alookup, hk] using h
    · rw [List.cons_append, alookup, if_neg hk]
      exact ih (by simpa [alookup, hk] using h)

theorem alookup_append_none {α : Type} {l₁ : List (Str × α)} {k : Str}
    (l₂ : List (Str × α)) (h : alookup l₁ k = none) :
    alookup (l₁ ++ l₂) k = alookup l₂ k := by
  induction l₁ with
  | nil => rfl
  | cons p t ih =>
    obtain ⟨k', v'⟩ := p
    by_cases hk : k' = k
    · simp [alookup, hk] at h
    · rw [List.cons_append, alookup, if_neg hk]
      exact ih (by simpa [alookup, hk] using h)

theorem alookup_amodify {α : Type} (l : List (Str × α)) (k : Str)
    (f : α → α) (j : Str) :
    alookup (amodify l k f) j
      = if k = j then (alookup l j).map f else alookup l j := by
  induction l with
  | nil => by_cases hkj : k = j <;> simp [amodify, alookup, hkj]
  | cons p t ih =>
    obtain ⟨k', v'⟩ := p
    by_cases hk : k' = k
    · subst hk
      by_cases hkj : k' = j <;> simp [amodify, alookup, hkj]
    · by_cases hj : k' = j
      · subst hj
        have hkj : k ≠ k' := fun he => hk he.symm
        simp [amodify, alookup, hk, hkj]
      · simp [amodify, alookup, hk, hj, ih]

theorem alookup_aset {α : Type} (l : List (Str × α)) (k : Str) (v : α)
    (j : Str) :
    alookup (aset l k v) j = if k = j then some v else alookup l j := by
  induction l with
  | nil => by_cases hkj : k = j <;> simp [aset, alookup, hkj]
  | cons p t ih =>
    obtain ⟨k', v'⟩ := p
    by_cases hk : k' = k
    · subst hk
      by_cases hkj : k' = j <;> simp [aset, alookup, hkj]
    · by_cases hj : k' = j
      · subst hj
        have hkj : k ≠ k' := fun he => hk he.symm
        simp [aset, alookup, hk, hkj]
      · simp [aset, alookup, hk, hj, ih]

theorem alookup_map {α β : Type} (l : List (Str × α)) (g : α → β) (k : Str) :
    alookup (l.map (fun p => (p.1, g p.2))) k = (alookup l k).map g := by
  induction l with
  | nil => rfl
  | cons p t ih =>
    obtain ⟨k', v'⟩ := p
    by_cases hk : k' = k <;> simp [alookup, hk, ih]

theorem alookup_cons_ne {α : Type} {k' k : Str} (v' : α) (t : List (Str × α))
    (h : k' ≠ k) : alookup ((k', v') :: t) k = alookup t k := by
  simp [alookup, h]

/-! ### Lemmas about interpolation -/

theorem interpLoop_no_pct (d : List (Str × Str)) (opt sect : Str)
    (nested : Str → Except PyErr Str) :
    ∀ (fuel : Nat) (v : Str), '%' ∉ v → v.length ≤ fuel →
      interpLoop d opt sect nested fuel v = .ok v := by
  intro fuel
  induction fuel with
  | zero =>
    intro v hp hl
    match v with
    | [] => rfl
    | c :: t => simp at hl
  | succ n ih =>
    intro v hp hl
    match v with
    | [] => rfl
    | c :: t =>
      have hc : ¬ c = '%' := fun he => hp (he ▸ List.mem_cons_self c t)
      have hpt : '%' ∉ t := fun hm => hp (List.mem_cons_of_mem c hm)
      have hlt : t.length ≤ n := by simpa using hl
      simp [interpLoop, hc, ih t hpt hlt, Except.map]

theorem interpSome_one_no_pct (d : List (Str × Str)) (opt sect : Str)
    {v : Str} (h : '%' ∉ v) : interpSome d opt sect 1 v = .ok v := by
  show interpEntry d opt sect (11 - 1) 1 v = .ok v
  rw [show (11 - 1 : Nat) = 9 + 1 from rfl, interpEntry]
  simp [interpLoop_no_pct d opt sect _ v.length v h le_rfl]

/-! ### Lemmas about single parsing steps -/

theorem processLine_comment {l : Str} (st : PState)
    (h : isCommentLine l = true) : processLine st l = .ok st := by
  simp [processLine, h]

theorem processLine_blank {l : Str} (st : PState)
    (hb : pstrip l = []) (hopt : st.optname = []) :
    processLine st l = .ok st := by
  by_cases hc : isCommentLine l
  · simp [processLine, hc]
  · simp [processLine, hc, hb, hopt]

/-- Processing a non-comment, non-header, non-continuation `key = value`
line whose key is new in the current section: the option is recorded
(case-folded) with its single value part, and the bookkeeping updated. -/
theorem processLine_option (st : PState) (sn l k0 v : Str)
    (hcur : st.cursect = some sn)
    (hnc : st.optname = [] ∨ l.findIdx (fun c => ! pyWS c) ≤ st.indentLevel)
    (hcom : isCommentLine l = false)
    (hsect : sectHeader? (pstrip l) = none)
    (hline : optLine? (pstrip l) = some (k0, v))
    (hk0 : k0 ≠ [])
    (hdup : (sn, lowerStr k0) ∉ st.addedOptions) :
    processLine st l = .ok
      { (writeCur { st with indentLevel := l.findIdx (fun c => ! pyWS c) } sn
          (fun d => aset d (lowerStr k0) [v])) with
        optname := lowerStr k0,
        addedOptions := (sn, lowerStr k0) :: st.addedOptions,
        hasErrors := st.hasErrors } := by
  have hval : pstrip l ≠ [] := by
    intro he
    rw [he] at hline
    simp [optLine?, splitAtDelim] at hline
  rcases hnc with hopt | hle
  · simp [processLine, hcom, hval, hopt, hsect, hcur, hline, hdup, hk0]
  · have hgt : ¬ (st.indentLevel < l.findIdx (fun c => ! pyWS c)) := by omega
    simp [processLine, hcom, hval, hgt, hsect, hcur, hline, hdup, hk0]

/-- Processing a `key = value` line whose (case-folded) key was already
assigned in the current section raises `DuplicateOptionError` (strict
mode). -/
theorem processLine_option_dup (st : PState) (sn l k0 v : Str)
    (hcur : st.cursect = some sn)
    (hnc : st.optname = [] ∨ l.findIdx (fun c => ! pyWS c) ≤ st.indentLevel)
    (hcom : isCommentLine l = false)
    (hsect : sectHeader? (pstrip l) = none)
    (hline : optLine? (pstrip l) = some (k0, v))
    (hdup : (sn, lowerStr k0) ∈ st.addedOptions) :
    processLine st l = .error (.duplicateOption sn (lowerStr k0)) := by
  have hval : pstrip l ≠ [] := by
    intro he
    rw [he] at hline
    simp [optLine?, splitAtDelim] at hline
  rcases hnc with hopt | hle
  · simp [processLine, hcom, hval, hopt, hsect, hcur, hline, hdup]
  · have hgt : ¬ (st.indentLevel < l.findIdx (fun c => ! pyWS c)) := by omega
    simp [processLine, hcom, hval, hgt, hsect, hcur, hline, hdup]

/-- The strip of an `x = <v>` line. -/
theorem pstrip_x_line (v : Str) :
    pstrip ('x' :: ' ' :: '=' :: ' ' :: v)
      = 'x' :: ' ' :: '=' :: rstrip (' ' :: v) := by
  show rstrip ('x' :: ' ' :: '=' :: ' ' :: v) = _
  rw [rstrip_cons_nonws _ (by decide)]
  rw [rstrip_cons, rstrip_cons_nonws _ (by decide)]
  simp

/-- The option-line match of a stripped `x = <v>` line. -/
theorem optLine_x_line (w : Str) :
    optLine? ('x' :: ' ' :: '=' :: w) = some (['x'], pstrip w) := by
  have h1 : splitAtDelim ('x' :: ' ' :: '=' :: w) = some (['x', ' '], w) := by
    simp [splitAtDelim]
  simp [optLine?, h1]
  decide

/-! ### Lemmas for the synthetic top section invariant -/

theorem intercalate_head_ex (sep v : Str) (ps : List Str) :
    ∃ u, List.intercalate sep (v :: ps) = v ++ u := by
  cases ps with
  | nil => exact ⟨[], by simp [List.intercalate, List.intersperse]⟩
  | cons p pt =>
    exact ⟨sep ++ List.intercalate sep (p :: pt),
      by simp [List.intercalate, List.intersperse]⟩

theorem writeCur_sections (st : PState) (n : Str) (f : SectData → SectData) :
    (writeCur st n f).sections
      = if n = DEFAULTSECT then st.sections else amodify st.sections n f := by
  by_cases hn : n = DEFAULTSECT <;> simp [writeCur, hn]

theorem writeCur_addedOptions (st : PState) (n : Str) (f : SectData → SectData) :
    (writeCur st n f).addedOptions = st.addedOptions := by
  by_cases hn : n = DEFAULTSECT <;> simp [writeCur, hn]

theorem writeCur_addedSections (st : PState) (n : Str) (f : SectData → SectData) :
    (writeCur st n f).addedSections = st.addedSections := by
  by_cases hn : n = DEFAULTSECT <;> simp [writeCur, hn]

/-- Appending a continuation part (through whatever section and key the
parser is currently writing) never disturbs the head of an existing parts
list. -/
theorem keyInv_parts_writeCur_app {v₀ k : Str} {st : PState} (n j x : Str)
    (h : ∃ parts, optParts st topName k = some (v₀ :: parts)) :
    ∃ parts, optParts
        (writeCur st n (fun d => amodify d j (fun ps => ps ++ [x])))
        topName k = some (v₀ :: parts) := by
  obtain ⟨parts, hp⟩ := h
  simp only [optParts] at hp ⊢
  rcases halk : alookup st.sections topName with _ | sd
  · simp only [halk] at hp
    exact Option.noConfusion hp
  · simp only [halk] at hp
    by_cases hn : n = DEFAULTSECT
    · simp only [writeCur_sections, if_pos hn, halk, hp]
      exact ⟨parts, rfl⟩
    · by_cases hnt : n = topName
      · simp only [writeCur_sections, if_neg hn, alookup_amodify, if_pos hnt,
          halk, Option.map_some', alookup_amodify]
        by_cases hj : j = k
        · simp only [if_pos hj, hp, Option.map_some']
          exact ⟨parts ++ [x], by simp⟩
        · simp only [if_neg hj, hp]
          exact ⟨parts, rfl⟩
      · simp only [writeCur_sections, if_neg hn, alookup_amodify, if_neg hnt,
          halk, hp]
        exact ⟨parts, rfl⟩

/-- A fresh assignment through the current write target preserves the head
of the tracked parts list provided it does not target exactly the tracked
`(topName, key)` slot. -/
theorem keyInv_parts_writeCur_set {v₀ k : Str} {st : PState} (n j : Str)
    (x : List Str) (hne : ¬ (n = topName ∧ j = k))
    (h : ∃ parts, optParts st topName k = some (v₀ :: parts)) :
    ∃ parts, optParts (writeCur st n (fun d => aset d j x)) topName k
      = some (v₀ :: parts) := by
  obtain ⟨parts, hp⟩ := h
  simp only [optParts] at hp ⊢
  rcases halk : alookup st.sections topName with _ | sd
  · simp only [halk] at hp
    exact Option.noConfusion hp
  · simp only [halk] at hp
    by_cases hn : n = DEFAULTSECT
    · simp only [writeCur_sections, if_pos hn, halk, hp]
      exact ⟨parts, rfl⟩
    · by_cases hnt : n = topName
      · have hj : ¬ j = k := fun hj => hne ⟨hnt, hj⟩
        simp only [writeCur_sections, if_neg hn, alookup_amodify, if_pos hnt,
          halk, Option.map_some', alookup_aset, if_neg hj, hp]
        exact ⟨parts, rfl⟩
      · simp only [writeCur_sections, if_neg hn, alookup_amodify, if_neg hnt,
          halk, hp]
        exact ⟨parts, rfl⟩

/-- One `_read` step preserves the top-section key invariant. -/
theorem processLine_keyInv {st st' : PState} {l : Str} (v₀ k : Str)
    (h : processLine st l = .ok st') (hinv : KeyInv v₀ k st) :
    KeyInv v₀ k st' := by
  obtain ⟨hparts, hmemo, hmems⟩ := hinv
  by_cases hisC : isCommentLine l = true
  · rw [processLine_comment st hisC] at h
    injection h with h
    subst h
    exact ⟨hparts, hmemo, hmems⟩
  · have hisC' : isCommentLine l = false := by simpa using hisC
    simp only [processLine, hisC', Bool.not_false, Bool.false_eq_true,
      if_false, true_and] at h
    split at h
    · -- blank line
      split at h
      · -- append an empty continuation part
        split at h
        · -- cursect = some n
          injection h with h
          subst h
          refine ⟨keyInv_parts_writeCur_app _ _ _ hparts, ?_, ?_⟩
          · rw [writeCur_addedOptions]
            exact hmemo
          · rw [writeCur_addedSections]
            exact hmems
        · injection h with h
          subst h
          exact ⟨hparts, hmemo, hmems⟩
      · injection h with h
        subst h
        exact ⟨hparts, hmemo, hmems⟩
    · -- content line
      split at h
      · -- continuation line
        split at h
        · injection h with h
          subst h
          refine ⟨keyInv_parts_writeCur_app _ _ _ hparts, ?_, ?_⟩
          · rw [writeCur_addedOptions]
            exact hmemo
          · rw [writeCur_addedSections]
            exact hmems
        · injection h with h
          subst h
          exact ⟨hparts, hmemo, hmems⟩
      · -- header or option line
        split at h
        · -- section header
          split at h
          · -- the section already exists
            split at h
            · exact Except.noConfusion h
            · injection h with h
              subst h
              exact ⟨hparts, hmemo, List.mem_cons_of_mem _ hmems⟩
          · split at h
            · -- the DEFAULT section
              injection h with h
              subst h
              exact ⟨hparts, hmemo, hmems⟩
            · -- a new section, appended at the end
              injection h with h
              subst h
              obtain ⟨parts, hp⟩ := hparts
              simp only [optParts] at hp
              rcases halk : alookup st.sections topName with _ | sd
              · simp only [halk] at hp
                exact Option.noConfusion hp
              · simp only [halk] at hp
                refine ⟨⟨parts, ?_⟩, hmemo, List.mem_cons_of_mem _ hmems⟩
                simp only [optParts]
                rw [alookup_append_some _ halk]
                exact hp
        · -- option line (or bogus line)
          split at h
          · exact Except.noConfusion h
          · rename_i sn hcur
            split at h
            · -- a key = value assignment
              rename_i rawOpt v heqline
              split at h
              · exact Except.noConfusion h
              · rename_i hdupF
                injection h with h
                subst h
                have hne : ¬ (sn = topName ∧ lowerStr rawOpt = k) := by
                  rintro ⟨hsn, hko⟩
                  exact hdupF (by rw [hsn, hko]; exact hmemo)
                refine ⟨keyInv_parts_writeCur_set _ _ _ hne hparts, ?_, ?_⟩
                · exact List.mem_cons_of_mem _ hmemo
                · rw [writeCur_addedSections]
                  exact hmems
            · -- bogus line: only the error flag changes
              injection h with h
              subst h
              exact ⟨hparts, hmemo, hmems⟩

/-- The whole `_read` loop preserves the top-section key invariant. -/
theorem runLines_keyInv (v₀ k : Str) :
    ∀ (ls : List Str) (st st' : PState), runLines st ls = .ok st' →
      KeyInv v₀ k st → KeyInv v₀ k st' := by
  intro ls
  induction ls with
  | nil =>
    intro st st' h hi
    injection h with h
    subst h
    exact hi
  | cons l t ih =>
    intro st st' h hi
    simp only [runLines] at h
    split at h
    · rename_i st₁ hstep
      exact ih st₁ st' h (processLine_keyInv v₀ k hstep hi)
    · exact absurd h (by simp)

/-- Leading all-whitespace lines are skipped without changing the state,
as long as no multiline value is open. -/
theorem runLines_blanks (pre : List Str) (st : PState) (ls : List Str)
    (hpre : ∀ l ∈ pre, pstrip l = []) (hopt : st.optname = []) :
    runLines st (pre ++ ls) = runLines st ls := by
  induction pre with
  | nil => rfl
  | cons p t ih =>
    rw [List.cons_append]
    have hb : processLine st p = .ok st :=
      processLine_blank st (hpre p (List.mem_cons_self p t)) hopt
    simp only [runLines, hb]
    exact ih (fun l hl => hpre l (List.mem_cons_of_mem p hl))

/-- The `_read` loop splits over list append. -/
theorem runLines_append (A B : List Str) : ∀ st : PState,
    runLines st (A ++ B) = match runLines st A with
      | .ok st' => runLines st' B
      | .error e => .error e := by
  induction A with
  | nil =>
    intro st
    rfl
  | cons l t ih =>
    intro st
    rw [List.cons_append]
    simp only [runLines]
    cases hp : processLine st l with
    | error e => rfl
    | ok st₁ => exact ih st₁

/-- One `_read` step keeps the recorded assignment pairs duplicate-free:
the only extension of `elements_added` with an option pair happens behind
the strict-mode membership check. -/
theorem processLine_addedOptions_nodup {st st' : PState} {l : Str}
    (h : processLine st l = .ok st') (hn : st.addedOptions.Nodup) :
    st'.addedOptions.Nodup := by
  by_cases hisC : isCommentLine l = true
  · rw [processLine_comment st hisC] at h
    injection h with h
    subst h
    exact hn
  · have hisC' : isCommentLine l = false := by simpa using hisC
    simp only [processLine, hisC', Bool.not_false, Bool.false_eq_true,
      if_false, true_and] at h
    split at h
    · split at h
      · split at h
        · injection h with h
          subst h
          rw [writeCur_addedOptions]
          exact hn
        · injection h with h
          subst h
          exact hn
      · injection h with h
        subst h
        exact hn
    · split at h
      · split at h
        · injection h with h
          subst h
          rw [writeCur_addedOptions]
          exact hn
        · injection h with h
          subst h
          exact hn
      · split at h
        · split at h
          · split at h
            · exact Except.noConfusion h
            · injection h with h
              subst h
              exact hn
          · split at h
            · injection h with h
              subst h
              exact hn
            · injection h with h
              subst h
              exact hn
        · split at h
          · exact Except.noConfusion h
          · rename_i sn hcur
            split at h
            · rename_i rawOpt v heqline
              split at h
              · exact Except.noConfusion h
              · rename_i hdupF
                injection h with h
                subst h
                exact List.nodup_cons.mpr ⟨hdupF, hn⟩
            · injection h with h
              subst h
              exact hn

/-- In any successful read, every `(section, key)` pair was assigned at
most once: the recorded assignment pairs are pairwise distinct. -/
theorem runLines_addedOptions_nodup :
    ∀ (ls : List Str) (st st' : PState), runLines st ls = .ok st' →
      st.addedOptions.Nodup → st'.addedOptions.Nodup := by
  intro ls
  induction ls with
  | nil =>
    intro st st' h hn
    injection h with h
    subst h
    exact hn
  | cons l t ih =>
    intro st st' h hn
    simp only [runLines] at h
    split at h
    · rename_i st₁ hstep
      exact ih st₁ st' h (processLine_addedOptions_nodup hstep hn)
    · exact Except.noConfusion h

/-! ### Lemmas for the prepended-header simulation -/

theorem sectHeader?_head {value n : Str} (h : sectHeader? value = some n) :
    ∃ t, value = '[' :: t := by
  rcases value with _ | ⟨c, t⟩
  · exact Option.noConfusion h
  · by_cases hc : c = '['
    · exact ⟨t, by rw [hc]⟩
    · simp [sectHeader?, hc] at h

theorem isCommentLine_of_header {l n : Str}
    (h : sectHeader? (pstrip l) = some n) : isCommentLine l = false := by
  obtain ⟨t, ht⟩ := sectHeader?_head h
  unfold isCommentLine
  rw [ht]
  rfl

theorem amodify_cons_ne {α : Type} {k' k : Str} (v' : α) (t : List (Str × α))
    (f : α → α) (h : k' ≠ k) :
    amodify ((k', v') :: t) k f = (k', v') :: amodify t k f := by
  simp [amodify, h]

theorem writeCur_cursect (st : PState) (n : Str) (f : SectData → SectData) :
    (writeCur st n f).cursect = st.cursect := by
  by_cases hd : n = DEFAULTSECT <;> simp [writeCur, hd]

theorem writeCur_pushTop (sp : PState) (n : Str) (f : SectData → SectData)
    (hn : n ≠ topName) :
    writeCur (pushTop sp) n f = pushTop (writeCur sp n f) := by
  by_cases hd : n = DEFAULTSECT
  · simp [writeCur, pushTop, hd]
  · have hm := amodify_cons_ne ([] : SectData) sp.sections f
      (fun he => hn he.symm)
    simp [writeCur, pushTop, hd, hm]

/-- Leading blank and comment lines are skipped without changing the
state, as long as no multiline value is open. -/
theorem runLines_skips (pre : List Str) (st : PState) (ls : List Str)
    (hpre : ∀ l ∈ pre, pstrip l = [] ∨ isCommentLine l = true)
    (hopt : st.optname = []) :
    runLines st (pre ++ ls) = runLines st ls := by
  induction pre with
  | nil => rfl
  | cons p t ih =>
    rw [List.cons_append]
    have hb : processLine st p = .ok st := by
      rcases hpre p (List.mem_cons_self p t) with h | h
      · exact processLine_blank st h hopt
      · exact processLine_comment st h
    simp only [runLines, hb]
    exact ih (fun l hl => hpre l (List.mem_cons_of_mem p hl))

/-- A successful `_read` step keeps the current section defined and
different from the synthetic name, provided the line does not open the
synthetic section. -/
theorem processLine_cursect {sp sp' : PState} {l : Str}
    (h : processLine sp l = .ok sp')
    (hl : headerName? l ≠ some topName)
    (hcur : ∃ n, sp.cursect = some n ∧ n ≠ topName) :
    ∃ n, sp'.cursect = some n ∧ n ≠ topName := by
  obtain ⟨cn, hcn, hcnt⟩ := hcur
  by_cases hisC : isCommentLine l = true
  · rw [processLine_comment sp hisC] at h
    injection h with h
    subst h
    exact ⟨cn, hcn, hcnt⟩
  · have hisC' : isCommentLine l = false := by simpa using hisC
    have hl' : sectHeader? (pstrip l) ≠ some topName := by
      simpa [headerName?, hisC'] using hl
    simp only [processLine, hisC', Bool.not_false, Bool.false_eq_true,
      if_false, true_and] at h
    split at h
    · split at h
      · split at h
        · injection h with h
          subst h
          exact ⟨cn, by rw [writeCur_cursect]; exact hcn, hcnt⟩
        · injection h with h
          subst h
          exact ⟨cn, hcn, hcnt⟩
      · injection h with h
        subst h
        exact ⟨cn, hcn, hcnt⟩
    · split at h
      · split at h
        · injection h with h
          subst h
          exact ⟨cn, by rw [writeCur_cursect]; exact hcn, hcnt⟩
        · injection h with h
          subst h
          exact ⟨cn, hcn, hcnt⟩
      · split at h
        · -- a section header: the new current section is its name
          rename_i name heq
          have hnt : name ≠ topName := fun he => hl' (he ▸ heq)
          split at h
          · split at h
            · exact Except.noConfusion h
            · injection h with h
              subst h
              exact ⟨name, rfl, hnt⟩
          · split at h
            · injection h with h
              subst h
              exact ⟨name, rfl, hnt⟩
            · injection h with h
              subst h
              exact ⟨name, rfl, hnt⟩
        · split at h
          · exact Except.noConfusion h
          · rename_i sn hsn
            split at h
            · split at h
              · exact Except.noConfusion h
              · injection h with h
                subst h
                refine ⟨cn, ?_, hcnt⟩
                rw [writeCur_cursect]
                exact hcn
            · injection h with h
              subst h
              exact ⟨cn, hcn, hcnt⟩

theorem pushTop_cursect (sp : PState) : (pushTop sp).cursect = sp.cursect :=
  rfl

theorem pushTop_optname (sp : PState) : (pushTop sp).optname = sp.optname :=
  rfl

theorem pushTop_indentLevel (sp : PState) :
    (pushTop sp).indentLevel = sp.indentLevel := rfl

theorem pushTop_hasErrors (sp : PState) :
    (pushTop sp).hasErrors = sp.hasErrors := rfl

theorem pushTop_addedOptions (sp : PState) :
    (pushTop sp).addedOptions = sp.addedOptions := rfl

theorem pushTop_sections (sp : PState) :
    (pushTop sp).sections = (topName, []) :: sp.sections := rfl

theorem pushTop_addedSections (sp : PState) :
    (pushTop sp).addedSections = sp.addedSections ++ [topName] := rfl

theorem pushTop_indent (sp : PState) (i : Nat) :
    { pushTop sp with indentLevel := i } = pushTop { sp with indentLevel := i } :=
  rfl

/-- One `_read` step commutes with the `pushTop` transport: from the state
carrying the extra empty `__TOP__` section, any line that does not itself
open `[__TOP__]` is processed exactly as in the plain run, the extra
section carried along untouched. -/
theorem processLine_pushTop_eq {sp : PState} {l : Str}
    (hl : headerName? l ≠ some topName)
    (hcur : ∃ n, sp.cursect = some n ∧ n ≠ topName) :
    processLine (pushTop sp) l = (processLine sp l).map pushTop := by
  obtain ⟨cn, hcn, hcnt⟩ := hcur
  by_cases hisC : isCommentLine l = true
  · rw [processLine_comment _ hisC, processLine_comment _ hisC]
    rfl
  · have hisC' : isCommentLine l = false := by simpa using hisC
    have hl' : sectHeader? (pstrip l) ≠ some topName := by
      simpa [headerName?, hisC'] using hl
    by_cases hb : pstrip l = []
    · by_cases hopt : sp.optname = []
      · rw [processLine_blank _ hb hopt, processLine_blank (pushTop sp) hb hopt]
        rfl
      · simp only [processLine, hisC', Bool.not_false, Bool.false_eq_true,
          if_false, true_and, hb, pushTop_cursect, pushTop_optname, hcn,
          if_pos rfl, ne_eq, reduceCtorEq, not_false_eq_true, hopt,
          and_true, true_and, if_true, Except.map]
        rw [writeCur_pushTop _ _ _ hcnt]
    · simp only [processLine, hisC', Bool.not_false, Bool.false_eq_true,
        if_false, true_and, hb, if_neg hb, pushTop_cursect, pushTop_optname,
        pushTop_indentLevel, pushTop_hasErrors, pushTop_addedOptions, hcn]
      by_cases hcont : ¬ sp.optname = [] ∧ sp.indentLevel < l.findIdx (fun c => ! pyWS c)
      · simp only [ne_eq, reduceCtorEq, not_false_eq_true, true_and, hcont.1,
          hcont.2, and_true, if_true, Except.map]
        rw [writeCur_pushTop _ _ _ hcnt]
      · have hcF : ¬ ((some cn ≠ none) ∧ ¬ sp.optname = []
            ∧ sp.indentLevel < l.findIdx (fun c => ! pyWS c)) := by
          intro hco
          exact hcont ⟨hco.2.1, hco.2.2⟩
        rw [if_neg hcF, if_neg hcF]
        rcases hsh : sectHeader? (pstrip l) with _ | name
        · -- no header: an option (or bogus) line
          rcases hol : optLine? (pstrip l) with _ | ⟨rawOpt, v⟩
          · simp only [hsh, hol, Except.map]
            simp [pushTop]
          · simp only [hsh, hol, Except.map]
            by_cases hdup : (cn, lowerStr rawOpt) ∈ sp.addedOptions
            · rw [if_pos hdup, if_pos hdup]
            · rw [if_neg hdup, if_neg hdup]
              by_cases hd : cn = DEFAULTSECT
              · simp [writeCur, pushTop, hd, Except.map]
              · have hm := amodify_cons_ne ([] : SectData) sp.sections
                  (fun d => aset d (lowerStr rawOpt) [v])
                  (fun he => hcnt he.symm)
                simp [writeCur, pushTop, hd, hm, Except.map]
        · -- a section header, necessarily not [__TOP__]
          have hnt : name ≠ topName := fun he => hl' (he ▸ hsh)
          have hlk : alookup ((topName, ([] : SectData)) :: sp.sections) name
              = alookup sp.sections name :=
            alookup_cons_ne _ _ (fun he => hnt he.symm)
          simp only [hsh, pushTop_sections, hlk, Except.map]
          by_cases hex : (alookup sp.sections name).isSome
          · rw [if_pos hex, if_pos hex]
            by_cases hadd : name ∈ sp.addedSections
            · rw [if_pos (show name ∈ (pushTop sp).addedSections by
                  simp [pushTop_addedSections, hadd]),
                if_pos hadd]
            · rw [if_neg (show ¬ name ∈ (pushTop sp).addedSections by
                  simp [pushTop_addedSections, hadd, hnt]),
                if_neg hadd]
              simp [pushTop]
          · rw [if_neg hex, if_neg hex]
            by_cases hdef : name = DEFAULTSECT
            · rw [if_pos hdef, if_pos hdef]
              simp [pushTop]
            · rw [if_neg hdef, if_neg hdef]
              simp [pushTop]

theorem pushTop_defaults (sp : PState) : (pushTop sp).defaults = sp.defaults :=
  rfl

/-- The whole remaining `_read` loop commutes with `pushTop`. -/
theorem runLines_pushTop (ls : List Str) : ∀ (sp : PState),
    (∀ l ∈ ls, headerName? l ≠ some topName) →
    (∃ n, sp.cursect = some n ∧ n ≠ topName) →
    runLines (pushTop sp) ls = (runLines sp ls).map pushTop := by
  induction ls with
  | nil =>
    intro sp _ _
    rfl
  | cons l t ih =>
    intro sp hls hcur
    have hl := hls l (List.mem_cons_self l t)
    have heq := processLine_pushTop_eq hl hcur
    rcases hpl : processLine sp l with e | sp'
    · rw [hpl] at heq
      simp only [runLines, hpl, heq, Except.map]
    · rw [hpl] at heq
      have heq' : processLine (pushTop sp) l = .ok (pushTop sp') := heq
      have hcur' := processLine_cursect hpl hl hcur
      simp only [runLines, hpl, heq']
      exact ih sp' (fun x hx => hls x (List.mem_cons_of_mem l hx)) hcur'

/-- Processing the file's first explicit header line: the plain run opens
it from scratch; the prepended run opens it next to the empty `__TOP__`
section, landing exactly in the transported state. -/
theorem processLine_header_top (h0 hname0 : Str)
    (hh : sectHeader? (pstrip h0) = some hname0)
    (hnt : hname0 ≠ topName) :
    ∃ sp1, processLine initState h0 = .ok sp1
      ∧ processLine topState h0 = .ok (pushTop sp1)
      ∧ ∃ n, sp1.cursect = some n ∧ n ≠ topName := by
  have hcom : isCommentLine h0 = false := isCommentLine_of_header hh
  have hval : pstrip h0 ≠ [] := by
    obtain ⟨t, ht⟩ := sectHeader?_head hh
    rw [ht]
    simp
  have hlk : alookup [(topName, ([] : SectData))] hname0 = none := by
    rw [alookup_cons_ne _ _ (fun he => hnt he.symm)]
    rfl
  by_cases hdef : hname0 = DEFAULTSECT
  · have hlk2 : alookup [(topName, ([] : SectData))] DEFAULTSECT = none :=
      hdef ▸ hlk
    refine ⟨{ initState with
        indentLevel := h0.findIdx (fun c => ! pyWS c),
        cursect := some hname0, optname := [] }, ?_, ?_, hname0, rfl, hnt⟩
    · simp [processLine, hcom, hval, initState, alookup, hh, hdef]
    · simp [processLine, hcom, hval, topState, pushTop, initState, hlk,
        hlk2, hh, hdef]
  · refine ⟨{ initState with
        indentLevel := h0.findIdx (fun c => ! pyWS c),
        sections := [(hname0, [])], cursect := some hname0,
        addedSections := [hname0] }, ?_, ?_, hname0, rfl, hnt⟩
    · simp [processLine, hcom, hval, initState, alookup, hh, hdef]
    · simp [processLine, hcom, hval, topState, pushTop, initState, hlk,
        hh, hdef]

/-- Looking up any section other than the synthetic one is oblivious to
the extra empty `__TOP__` entry at the front of the section list. -/
theorem cfgGet_top_cons (cfg : Config) (sect key : Str) (hs : sect ≠ topName) :
    cfgGet { defaults := cfg.defaults,
             sections := (topName, []) :: cfg.sections } sect key
      = cfgGet cfg sect key := by
  have hlk : alookup ((topName, ([] : List (Str × Str))) :: cfg.sections) sect
      = alookup cfg.sections sect :=
    alookup_cons_ne _ _ (fun he => hs he.symm)
  simp only [cfgGet, unify, hlk]

/-! ### The claims -/

/-- C1, counterexample: in the file `[a]` / `x = %%` the stored value of
`x` is `%%`, but the program prints `%` (plus newline): `ConfigParser`'s
default `BasicInterpolation` rewrites the stored text on lookup, so the
output is not always exactly the stored value. -/
theorem claim_C1_counterexample :
    storedValue (readConfigLines (["[a]", "x = %%"].map String.data))
        "a".data "x".data = some "%%".data
    ∧ runMain (["read_config.py", "cfg.ini", "a", "x"].map String.data)
        (constFS (["[a]", "x = %%"].map String.data))
      = { stdout := "%\n".data, stderr := [], outcome := .exited 0 }
    ∧ "%\n".data ≠ "%%".data ++ ['\n'] := by
  decide

/-- C1, amended: for every valid INI file containing section `S` with key
`K` whose stored value `V` contains no percent sign, invoking the program
with `(F, S, K)` writes exactly `V` followed by a trailing newline to
standard output and exits with status 0. -/
theorem claim_C1_theorem (prog file sect key V : Str) (rest : List Str)
    (fs : Str → Except Str (List Str)) (lines : List Str) (cfg : Config)
    (sd : List (Str × Str))
    (hfs : fs file = .ok lines)
    (hparse : readConfigLines lines = .ok cfg)
    (hsect : alookup cfg.sections sect = some sd)
    (hkey : alookup sd (lowerStr key) = some V)
    (hnp : '%' ∉ V) :
    runMain (prog :: file :: sect :: key :: rest) fs
      = { stdout := V ++ ['\n'], stderr := [], outcome := .exited 0 } := by
  have hget : cfgGet cfg sect key = .ok V := by
    have hd : alookup (sd ++ cfg.defaults) (lowerStr key) = some V :=
      alookup_append_some cfg.defaults hkey
    simp only [cfgGet, unify, hsect, hd]
    exact interpSome_one_no_pct _ _ _ hnp
  simp only [runMain, hfs, hparse, hget]

/-- C1, witness of the amended theorem at a concrete input. -/
theorem claim_C1_witness :
    runMain (["read_config.py", "cfg.ini", "db", "Host"].map String.data)
      (constFS (["[db]", "host = localhost"].map String.data))
      = { stdout := "localhost\n".data, stderr := [], outcome := .exited 0 } :=
  claim_C1_theorem "read_config.py".data "cfg.ini".data "db".data "Host".data
    "localhost".data []
    (constFS (["[db]", "host = localhost"].map String.data))
    (["[db]", "host = localhost"].map String.data)
    (cfgOf (readConfigLines (["[db]", "host = localhost"].map String.data)))
    [("host".data, "localhost".data)]
    rfl (by decide) (by decide) (by decide) (by decide)

/-- C2, counterexample: in `[DEFAULT]` / `x = 1` / `[a]`, section `a` is
present and key `x` is absent within it, yet the program prints `1` (the
`DEFAULT` section's value), not the empty string: `ConfigParser` consults
the `DEFAULT` section before falling back. -/
theorem claim_C2_counterexample :
    alookup (cfgOf (readConfigLines
        (["[DEFAULT]", "x = 1", "[a]"].map String.data))).sections
        "a".data = some []
    ∧ runMain (["read_config.py", "cfg.ini", "a", "x"].map String.data)
        (constFS (["[DEFAULT]", "x = 1", "[a]"].map String.data))
      = { stdout := "1\n".data, stderr := [], outcome := .exited 0 }
    ∧ "1\n".data ≠ ['\n'] := by
  decide

/-- C2, amended: absence yields the empty string and exit 0, where absence
means: the section is absent (and is not the special `DEFAULT` name), or
the section is present but the key is found neither in it nor in the
`DEFAULT` defaults, or the `DEFAULT` section itself is queried and lacks
the key.  Absence is never reported as an error. -/
theorem claim_C2_theorem (prog file sect key : Str) (rest : List Str)
    (fs : Str → Except Str (List Str)) (lines : List Str) (cfg : Config)
    (hfs : fs file = .ok lines)
    (hparse : readConfigLines lines = .ok cfg)
    (habs : (alookup cfg.sections sect = none ∧ sect ≠ DEFAULTSECT)
      ∨ (∃ sd, alookup cfg.sections sect = some sd
           ∧ alookup sd (lowerStr key) = none
           ∧ alookup cfg.defaults (lowerStr key) = none)
      ∨ (alookup cfg.sections sect = none ∧ sect = DEFAULTSECT
           ∧ alookup cfg.defaults (lowerStr key) = none)) :
    runMain (prog :: file :: sect :: key :: rest) fs
      = { stdout := ['\n'], stderr := [], outcome := .exited 0 } := by
  have hget : cfgGet cfg sect key = .ok [] := by
    rcases habs with ⟨hs, hd⟩ | ⟨sd, hs, hk, hdef⟩ | ⟨hs, hd, hk⟩
    · simp only [cfgGet, unify, hs]
      simp [hd]
    · have hnone : alookup (sd ++ cfg.defaults) (lowerStr key) = none := by
        rw [alookup_append_none cfg.defaults hk, hdef]
      simp only [cfgGet, unify, hs, hnone]
    · simp only [cfgGet, unify, hs, if_pos hd, hk]
  simp only [runMain, hfs, hparse, hget]
  rfl

/-- C2, witness of the amended theorem: a missing section yields an empty
line and exit 0. -/
theorem claim_C2_witness :
    runMain (["read_config.py", "cfg.ini", "nope", "host"].map String.data)
      (constFS (["[db]", "host = localhost"].map String.data))
      = { stdout := ['\n'], stderr := [], outcome := .exited 0 } :=
  claim_C2_theorem "read_config.py".data "cfg.ini".data "nope".data
    "host".data []
    (constFS (["[db]", "host = localhost"].map String.data))
    (["[db]", "host = localhost"].map String.data)
    (cfgOf (readConfigLines (["[db]", "host = localhost"].map String.data)))
    rfl (by decide) (Or.inl (by decide))

/-- C3: in every successfully parsed file whose first non-blank line is a
`key = value` assignment with no preceding `[section]` header, that key is
addressable under the reserved synthetic top-level section name `__TOP__`
(because `"[__TOP__]"` is prepended to the line stream, the file itself
untouched): the parsed `__TOP__` section stores the key (case-folded) with
the assigned value as stored value — later lines can only extend it with
continuation parts, so the assigned value is its prefix and is exactly the
lookup result whenever no interpolation applies. -/
theorem claim_C3_theorem (pre rest : List Str) (l0 k0 v : Str) (cfg : Config)
    (hpre : ∀ l ∈ pre, pstrip l = [])
    (hcom : isCommentLine l0 = false)
    (hsect : sectHeader? (pstrip l0) = none)
    (hline : optLine? (pstrip l0) = some (k0, v))
    (hk0 : k0 ≠ [])
    (hparse : readConfigLines (pre ++ l0 :: rest) = .ok cfg) :
    ∃ sd w, alookup cfg.sections topName = some sd
      ∧ alookup sd (lowerStr k0) = some w
      ∧ v <+: w
      ∧ ('%' ∉ w → cfgGet cfg topName k0 = .ok w) := by
  have hv : rstrip v = v := by
    have hline' := hline
    rcases hsp : splitAtDelim (pstrip l0) with _ | p
    · unfold optLine? at hline'
      rw [hsp] at hline'
      exact Option.noConfusion hline'
    · unfold optLine? at hline'
      rw [hsp] at hline'
      simp only [Option.map_some', Option.some.injEq, Prod.mk.injEq] at hline'
      obtain ⟨_, hv1⟩ := hline'
      rw [← hv1]
      exact rstrip_idem (lstrip p.2)
  have htop : processLine initState topLine = .ok topState := by decide
  have hnd : ¬ topName = DEFAULTSECT := by decide
  rcases hstepE : processLine topState l0 with e1 | st1
  · rw [processLine_option topState topName l0 k0 v rfl (Or.inl rfl)
      hcom hsect hline hk0 (by simp [topState])] at hstepE
    exact Except.noConfusion hstepE
  · have hbig := processLine_option topState topName l0 k0 v rfl (Or.inl rfl)
      hcom hsect hline hk0 (by simp [topState])
    rw [hstepE] at hbig
    injection hbig with hbig
    have hinv1 : KeyInv v (lowerStr k0) st1 := by
      rw [hbig]
      refine ⟨⟨[], ?_⟩, List.mem_cons_self _ _, ?_⟩
      · simp only [optParts, writeCur_sections, if_neg hnd]
        simp [topState, amodify, aset, alookup]
      · rw [writeCur_addedSections]
        exact List.mem_cons_self _ _
    have hchain : runLines initState (topLine :: (pre ++ l0 :: rest))
        = runLines st1 rest := by
      calc runLines initState (topLine :: (pre ++ l0 :: rest))
          = runLines topState (pre ++ l0 :: rest) := by
            simp only [runLines, htop]
        _ = runLines topState (l0 :: rest) :=
            runLines_blanks pre topState _ hpre rfl
        _ = runLines st1 rest := by
            simp only [runLines, hstepE]
    rcases hfin : runLines st1 rest with e | stf
    · rw [hfin] at hchain
      simp only [readConfigLines, parseLines, hchain] at hparse
      exact Except.noConfusion hparse
    · rw [hfin] at hchain
      simp only [readConfigLines, parseLines, hchain] at hparse
      have hinvf : KeyInv v (lowerStr k0) stf :=
        runLines_keyInv v (lowerStr k0) rest st1 stf hfin hinv1
      obtain ⟨⟨parts, hp⟩, hmemo, hmems⟩ := hinvf
      simp only [optParts] at hp
      rcases halk : alookup stf.sections topName with _ | sd0
      · simp only [halk] at hp
        exact Option.noConfusion hp
      · simp only [halk] at hp
        simp only [finishParse] at hparse
        split at hparse
        · exact Except.noConfusion hparse
        · injection hparse with hparse
          subst hparse
          have hsec : alookup (stf.sections.map
              (fun s => (s.1, s.2.map (fun p => (p.1, joinParts p.2)))))
              topName = some (sd0.map (fun p => (p.1, joinParts p.2))) := by
            rw [alookup_map, halk]
            rfl
          have hkey2 : alookup (sd0.map (fun p => (p.1, joinParts p.2)))
              (lowerStr k0) = some (joinParts (v :: parts)) := by
            rw [alookup_map, hp]
            rfl
          refine ⟨_, _, hsec, hkey2, ?_, ?_⟩
          · obtain ⟨u, hu⟩ := intercalate_head_ex ['\n'] v parts
            show v <+: rstrip (List.intercalate ['\n'] (v :: parts))
            rw [hu]
            exact self_pre_rstrip_append hv u
          · intro hnp
            have happ := alookup_append_some
              (stf.defaults.map (fun p => (p.1, joinParts p.2))) hkey2
            simp only [cfgGet, unify, hsec, happ]
            exact interpSome_one_no_pct _ _ _ hnp

/-- C3, witness at the file consisting of the single line `foo = 1`. -/
theorem claim_C3_witness :
    ∃ sd w, alookup (cfgOf (readConfigLines ["foo = 1".data])).sections
        topName = some sd
      ∧ alookup sd (lowerStr "foo".data) = some w
      ∧ "1".data <+: w
      ∧ ('%' ∉ w →
          cfgGet (cfgOf (readConfigLines ["foo = 1".data])) topName
            "foo".data = .ok w) :=
  claim_C3_theorem [] [] "foo = 1".data "foo".data "1".data
    (cfgOf (readConfigLines ["foo = 1".data]))
    (by simp) (by decide) (by decide) (by decide) (by decide) (by decide)

/-- C4: with fewer than 3 positional arguments (fewer than 4 `argv`
entries), the program writes the single diagnostic line
`Missing arguments` to standard error, writes nothing to standard output,
and exits `-1` (nonzero). -/
theorem claim_C4_theorem (argv : List Str) (fs : Str → Except Str (List Str))
    (h : argv.length < 4) :
    runMain argv fs
      = { stdout := [], stderr := "Missing arguments".data ++ ['\n'],
          outcome := .exited (-1) }
    ∧ (runMain argv fs).outcome.nonzero = true := by
  have hr : runMain argv fs
      = { stdout := [], stderr := "Missing arguments".data ++ ['\n'],
          outcome := .exited (-1) } := by
    match argv with
    | [] => rfl
    | [_] => rfl
    | [_, _] => rfl
    | [_, _, _] => rfl
    | _ :: _ :: _ :: _ :: t =>
      exact absurd h (by simp only [List.length_cons]; omega)
  rw [hr]
  exact ⟨rfl, by decide⟩

/-- C4, witness at a concrete zero-argument invocation. -/
theorem claim_C4_witness :
    runMain ["read_config.py".data] (constFS [])
      = { stdout := [], stderr := "Missing arguments".data ++ ['\n'],
          outcome := .exited (-1) }
    ∧ (runMain ["read_config.py".data] (constFS [])).outcome.nonzero = true :=
  claim_C4_theorem ["read_config.py".data] (constFS []) (by decide)

/-- C5, counterexample: on `[a]` / `x = 1` / `x = 2` parsing does not
succeed with the later assignment winning — `ConfigParser` is strict by
default, so the duplicate key is a fatal `DuplicateOptionError` and the
program terminates with no output instead of printing `2`. -/
theorem claim_C5_counterexample :
    readConfigLines (["[a]", "x = 1", "x = 2"].map String.data)
      = .error (.duplicateOption "a".data "x".data)
    ∧ runMain (["read_config.py", "cfg.ini", "a", "x"].map String.data)
        (constFS (["[a]", "x = 1", "x = 2"].map String.data))
      = { stdout := [], stderr := [],
          outcome := .raised (.duplicateOption "a".data "x".data) } := by
  decide

/-- C5, amended: whenever the parse (behind the synthetic line) reaches a
state in which some `(section, case-folded key)` pair is already recorded
as assigned, and the next line of the file assigns that key again in that
same current section, parsing aborts with a fatal `DuplicateOptionError`
(strict mode), and the program terminates with a nonzero status and no
output at all.  Moreover no override-last-wins ever happens: in any
successful read, the recorded `(section, key)` assignment pairs are
pairwise distinct.  (If the duplication is produced by reopening a section
header, strict mode fails even earlier, with `DuplicateSectionError`.) -/
theorem claim_C5_theorem (pre rest restArgs : List Str)
    (l2 k2 v2 sn prog file sect key : Str)
    (fs : Str → Except Str (List Str)) (st2 : PState)
    (hfs : fs file = .ok (pre ++ l2 :: rest))
    (hpre : runLines initState (topLine :: pre) = .ok st2)
    (hcur : st2.cursect = some sn)
    (hassigned : (sn, lowerStr k2) ∈ st2.addedOptions)
    (hnc : st2.optname = [] ∨ l2.findIdx (fun c => ! pyWS c) ≤ st2.indentLevel)
    (hcom : isCommentLine l2 = false)
    (hsect : sectHeader? (pstrip l2) = none)
    (hline : optLine? (pstrip l2) = some (k2, v2)) :
    readConfigLines (pre ++ l2 :: rest)
      = .error (.duplicateOption sn (lowerStr k2))
    ∧ runMain (prog :: file :: sect :: key :: restArgs) fs
      = { stdout := [], stderr := [],
          outcome := .raised (.duplicateOption sn (lowerStr k2)) }
    ∧ (runMain (prog :: file :: sect :: key :: restArgs) fs).outcome.nonzero
        = true
    ∧ (∀ (lines : List Str) (st' : PState),
        runLines initState lines = .ok st' → st'.addedOptions.Nodup) := by
  have hdupErr : processLine st2 l2
      = .error (.duplicateOption sn (lowerStr k2)) :=
    processLine_option_dup st2 sn l2 k2 v2 hcur hnc hcom hsect hline hassigned
  have hrun : runLines initState (topLine :: (pre ++ l2 :: rest))
      = .error (.duplicateOption sn (lowerStr k2)) := by
    have hsplit : topLine :: (pre ++ l2 :: rest)
        = (topLine :: pre) ++ l2 :: rest := by
      simp
    rw [hsplit, runLines_append, hpre]
    simp only [runLines, hdupErr]
  have hcfg : readConfigLines (pre ++ l2 :: rest)
      = .error (.duplicateOption sn (lowerStr k2)) := by
    simp only [readConfigLines, parseLines, hrun]
  have hmain : runMain (prog :: file :: sect :: key :: restArgs) fs
      = { stdout := [], stderr := [],
          outcome := .raised (.duplicateOption sn (lowerStr k2)) } := by
    simp only [runMain, hfs, hcfg]
  refine ⟨hcfg, hmain, by rw [hmain]; rfl, ?_⟩
  intro lines st' h
  exact runLines_addedOptions_nodup lines initState st' h List.nodup_nil

/-- C5, witness of the amended theorem at a concrete file with a
duplicated key. -/
theorem claim_C5_witness :
    readConfigLines (["[db]", "port = 1", "port = 2"].map String.data)
      = .error (.duplicateOption "db".data "port".data)
    ∧ runMain (["read_config.py", "cfg.ini", "db", "port"].map String.data)
        (constFS (["[db]", "port = 1", "port = 2"].map String.data))
      = { stdout := [], stderr := [],
          outcome := .raised (.duplicateOption "db".data "port".data) }
    ∧ (runMain (["read_config.py", "cfg.ini", "db", "port"].map String.data)
        (constFS (["[db]", "port = 1", "port = 2"].map String.data))).outcome.nonzero
        = true := by
  have h := claim_C5_theorem (["[db]", "port = 1"].map String.data) [] []
    "port = 2".data "port".data "2".data "db".data
    "read_config.py".data "cfg.ini".data "db".data "port".data
    (constFS (["[db]", "port = 1", "port = 2"].map String.data))
    (stateOf (runLines initState
      (topLine :: (["[db]", "port = 1"].map String.data))))
    rfl (by decide) (by decide) (by decide) (Or.inr (by decide))
    (by decide) (by decide) (by decide)
  exact ⟨h.1, h.2.1, h.2.2.1⟩

/-- C6: a file read failure, or a parse failure of the (synthetically
prefixed) file, terminates the process with a nonzero status and produces
no standard output at all — in particular the failure is never converted
into the empty-string fallback (which would print a bare newline). -/
theorem claim_C6_theorem (prog file sect key : Str) (rest : List Str)
    (fs : Str → Except Str (List Str))
    (hfail : (∃ m, fs file = .error m)
      ∨ (∃ lines e, fs file = .ok lines ∧ readConfigLines lines = .error e)) :
    (runMain (prog :: file :: sect :: key :: rest) fs).stdout = []
    ∧ (runMain (prog :: file :: sect :: key :: rest) fs).outcome.nonzero
        = true := by
  rcases hfail with ⟨m, hm⟩ | ⟨lines, e, hl, he⟩
  · simp [runMain, hm, Outcome.nonzero]
  · simp [runMain, hl, he, Outcome.nonzero]

/-- C6, witness: duplicate section headers are a fatal parse error with no
stdout. -/
theorem claim_C6_witness :
    (runMain (["read_config.py", "cfg.ini", "a", "x"].map String.data)
       (constFS (["[a]", "[a]"].map String.data))).stdout = []
    ∧ (runMain (["read_config.py", "cfg.ini", "a", "x"].map String.data)
        (constFS (["[a]", "[a]"].map String.data))).outcome.nonzero = true :=
  claim_C6_theorem "read_config.py".data "cfg.ini".data "a".data "x".data []
    (constFS (["[a]", "[a]"].map String.data))
    (Or.inr ⟨["[a]", "[a]"].map String.data,
      .duplicateSection "a".data, rfl, by decide⟩)

/-- C7, counterexample: two files that begin with an explicit section
header for which prepending the synthetic section does change a lookup
result.  For `[__TOP__]` / `x = 1`, the plain parse answers `1` but the
prepended parse dies with `DuplicateSectionError`; for `[DEFAULT]` /
`x = 1`, querying `("__TOP__", "x")` answers the empty fallback on the
plain parse but `1` on the prepended one (the now-existing empty `__TOP__`
section exposes the `DEFAULT` value). -/
theorem claim_C7_counterexample :
    (plainLookup (["[__TOP__]", "x = 1"].map String.data) topName "x".data
        = .ok "1".data
      ∧ readLookup (["[__TOP__]", "x = 1"].map String.data) topName "x".data
        = .error (.duplicateSection topName))
    ∧ (plainLookup (["[DEFAULT]", "x = 1"].map String.data) topName "x".data
        = .ok []
      ∧ readLookup (["[DEFAULT]", "x = 1"].map String.data) topName "x".data
        = .ok "1".data) := by
  decide

/-- C7, amended: for every source file that begins with an explicit
section header (possibly after blank or comment lines) whose name is not
the synthetic one, and that contains no `[__TOP__]` header anywhere,
the synthetic top-level section is empty and unused: prepending it
changes no lookup result for any `(section, key)` query whose section is
not the synthetic name itself. -/
theorem claim_C7_theorem (pre : List Str) (h0 : Str) (rest : List Str)
    (hname0 sect key : Str)
    (hpre : ∀ l ∈ pre, pstrip l = [] ∨ isCommentLine l = true)
    (hh : sectHeader? (pstrip h0) = some hname0)
    (hnt : hname0 ≠ topName)
    (hrest : ∀ l ∈ rest, headerName? l ≠ some topName)
    (hs : sect ≠ topName) :
    readLookup (pre ++ h0 :: rest) sect key
      = plainLookup (pre ++ h0 :: rest) sect key := by
  obtain ⟨sp1, hp1, hp2, hcur1⟩ := processLine_header_top h0 hname0 hh hnt
  have htop : processLine initState topLine = .ok topState := by decide
  have hrunP : runLines initState (topLine :: (pre ++ h0 :: rest))
      = (runLines sp1 rest).map pushTop := by
    calc runLines initState (topLine :: (pre ++ h0 :: rest))
        = runLines topState (pre ++ h0 :: rest) := by
          simp only [runLines, htop]
      _ = runLines topState (h0 :: rest) :=
          runLines_skips pre topState _ hpre rfl
      _ = runLines (pushTop sp1) rest := by
          simp only [runLines, hp2]
      _ = (runLines sp1 rest).map pushTop :=
          runLines_pushTop rest sp1 hrest hcur1
  have hrunS : runLines initState (pre ++ h0 :: rest) = runLines sp1 rest := by
    calc runLines initState (pre ++ h0 :: rest)
        = runLines initState (h0 :: rest) :=
          runLines_skips pre initState _ hpre rfl
      _ = runLines sp1 rest := by
          simp only [runLines, hp1]
  simp only [readLookup, plainLookup, readConfigLines, parseLines,
    hrunP, hrunS]
  cases hfin : runLines sp1 rest with
  | error e => rfl
  | ok spf =>
    show (match finishParse (pushTop spf) with
          | .ok cfg => cfgGet cfg sect key
          | .error e => .error e)
        = match finishParse spf with
          | .ok cfg => cfgGet cfg sect key
          | .error e => .error e
    unfold finishParse
    by_cases he : spf.hasErrors = true
    · simp only [pushTop_hasErrors, he, if_true]
    · have he' : spf.hasErrors = false := by simpa using he
      simp only [pushTop_hasErrors, he', Bool.false_eq_true, if_false,
        pushTop_sections, pushTop_defaults, List.map_cons, List.map_nil]
      exact cfgGet_top_cons
        { defaults := spf.defaults.map (fun p => (p.1, joinParts p.2)),
          sections := spf.sections.map
            (fun s => (s.1, s.2.map (fun p => (p.1, joinParts p.2)))) }
        sect key hs

/-- C7, witness of the amended theorem at a concrete file. -/
theorem claim_C7_witness :
    readLookup (["[db]", "host = localhost"].map String.data)
      "db".data "host".data
    = plainLookup (["[db]", "host = localhost"].map String.data)
        "db".data "host".data :=
  claim_C7_theorem [] "[db]".data ["host = localhost".data] "db".data
    "db".data "host".data
    (by intro l hl; exact absurd hl (List.not_mem_nil l))
    (by decide) (by decide)
    (by
      intro l hl
      rw [List.mem_singleton] at hl
      subst hl
      decide)
    (by decide)

/-- C8: key names are matched case-insensitively — every lookup first
case-folds the requested key, exactly as the parser case-folded stored
keys, so keys that case-fold equally are interchangeable in every lookup —
while section names are matched case-sensitively (shown at a concrete
configuration where changing the section's case loses the match). -/
theorem claim_C8_theorem :
    (∀ (cfg : Config) (sect k k' : Str), lowerStr k = lowerStr k' →
        cfgGet cfg sect k = cfgGet cfg sect k')
    ∧ (cfgGet (cfgOf (readConfigLines (["[Sec]", "Key = 1"].map String.data)))
         "Sec".data "KEY".data = .ok "1".data
       ∧ cfgGet (cfgOf (readConfigLines (["[Sec]", "Key = 1"].map String.data)))
           "sec".data "key".data = .ok []
       ∧ "sec".data ≠ "Sec".data) := by
  constructor
  · intro cfg sect k k' h
    simp only [cfgGet, h]
  · decide

/-- C8, witness: the case-insensitive half applied at a concrete lookup. -/
theorem claim_C8_witness :
    cfgGet (cfgOf (readConfigLines (["[Sec]", "Key = 1"].map String.data)))
      "Sec".data "KEY".data
    = cfgGet (cfgOf (readConfigLines (["[Sec]", "Key = 1"].map String.data)))
        "Sec".data "key".data :=
  claim_C8_theorem.1 _ _ "KEY".data "key".data (by decide)

/-- C9: interpolation is applied on lookup — for the file
`[a]` / `x = %(y)s` / `y = 7` the stored value of `x` is `%(y)s` but the
program prints `7` — and a `%` that does not begin a valid interpolation
sequence (file `[a]` / `x = %z`) is a fatal `InterpolationSyntaxError`
with no output at all. -/
theorem claim_C9_theorem :
    (storedValue (readConfigLines (["[a]", "x = %(y)s", "y = 7"].map String.data))
        "a".data "x".data = some "%(y)s".data
     ∧ runMain (["read_config.py", "cfg.ini", "a", "x"].map String.data)
         (constFS (["[a]", "x = %(y)s", "y = 7"].map String.data))
       = { stdout := "7\n".data, stderr := [], outcome := .exited 0 }
     ∧ "7\n".data ≠ "%(y)s\n".data)
    ∧ runMain (["read_config.py", "cfg.ini", "a", "x"].map String.data)
        (constFS (["[a]", "x = %z"].map String.data))
      = { stdout := [], stderr := [],
          outcome := .raised (.interpolationSyntax "x".data "a".data) } := by
  decide

/-- C10: the program is deterministic — two invocations with identical
arguments over file systems with identical contents produce identical
output and exit status. -/
theorem claim_C10_theorem (argv : List Str)
    (fs₁ fs₂ : Str → Except Str (List Str)) (h : ∀ p, fs₁ p = fs₂ p) :
    runMain argv fs₁ = runMain argv fs₂ := by
  match argv with
  | [] => rfl
  | [_] => rfl
  | [_, _] => rfl
  | [_, _, _] => rfl
  | _prog :: file :: sect :: key :: rest =>
    simp only [runMain, h file]

/-- C10, witness at a concrete invocation against two file systems with
the same contents. -/
theorem claim_C10_witness :
    runMain (["read_config.py", "cfg.ini", "a", "x"].map String.data)
      (constFS (["[a]", "x = 1"].map String.data))
    = runMain (["read_config.py", "cfg.ini", "a", "x"].map String.data)
        (fun _ => .ok (["[a]", "x = 1"].map String.data)) :=
  claim_C10_theorem _ _ _ (fun _ => rfl)

end ReadConfig
